import Mathlib

/-!
Verification development for the lead-email-splitter application
(src/app.py).  The core is a field parser `parse_email_array` (strict
`ast.literal_eval` decoding with a regex fallback) and a row expander
`process_csv` (pandas: add parsed column, count, filter, explode, rename).
Python values that can appear in a dataframe cell are modelled by `PyVal`,
Python exceptions by `PyErr`, and dataframes by `Table`.
-/

/-- A Python value as it can occur in a pandas dataframe cell or as a
result of `ast.literal_eval` in this modelled fragment: NaN/None, a
string, an integer, or a list. -/
inductive PyVal where
  | none : PyVal
  | str : String → PyVal
  | int : Int → PyVal
  | list : List PyVal → PyVal
deriving Repr

instance : Inhabited PyVal := ⟨PyVal.none⟩

mutual

/-- Decidable equality for `PyVal` (written out by hand because the
deriving handler does not support the nested `List PyVal`). -/
def PyVal.decEq : (a b : PyVal) → Decidable (a = b)
  | PyVal.none, PyVal.none => Decidable.isTrue rfl
  | PyVal.none, PyVal.str _ => Decidable.isFalse (fun h => PyVal.noConfusion h)
  | PyVal.none, PyVal.int _ => Decidable.isFalse (fun h => PyVal.noConfusion h)
  | PyVal.none, PyVal.list _ => Decidable.isFalse (fun h => PyVal.noConfusion h)
  | PyVal.str _, PyVal.none => Decidable.isFalse (fun h => PyVal.noConfusion h)
  | PyVal.str a, PyVal.str b =>
    if h : a = b then Decidable.isTrue (by rw [h])
    else Decidable.isFalse (fun hh => PyVal.noConfusion hh (fun h2 => h h2))
  | PyVal.str _, PyVal.int _ => Decidable.isFalse (fun h => PyVal.noConfusion h)
  | PyVal.str _, PyVal.list _ => Decidable.isFalse (fun h => PyVal.noConfusion h)
  | PyVal.int _, PyVal.none => Decidable.isFalse (fun h => PyVal.noConfusion h)
  | PyVal.int _, PyVal.str _ => Decidable.isFalse (fun h => PyVal.noConfusion h)
  | PyVal.int a, PyVal.int b =>
    if h : a = b then Decidable.isTrue (by rw [h])
    else Decidable.isFalse (fun hh => PyVal.noConfusion hh (fun h2 => h h2))
  | PyVal.int _, PyVal.list _ => Decidable.isFalse (fun h => PyVal.noConfusion h)
  | PyVal.list _, PyVal.none => Decidable.isFalse (fun h => PyVal.noConfusion h)
  | PyVal.list _, PyVal.str _ => Decidable.isFalse (fun h => PyVal.noConfusion h)
  | PyVal.list _, PyVal.int _ => Decidable.isFalse (fun h => PyVal.noConfusion h)
  | PyVal.list as, PyVal.list bs =>
    match PyVal.decEqList as bs with
    | Decidable.isTrue h => Decidable.isTrue (by rw [h])
    | Decidable.isFalse h => Decidable.isFalse (fun hh => PyVal.noConfusion hh (fun h2 => h h2))

/-- Decidable equality for lists of `PyVal`. -/
def PyVal.decEqList : (as bs : List PyVal) → Decidable (as = bs)
  | [], [] => Decidable.isTrue rfl
  | [], _ :: _ => Decidable.isFalse (fun h => List.noConfusion h)
  | _ :: _, [] => Decidable.isFalse (fun h => List.noConfusion h)
  | a :: as, b :: bs =>
    match PyVal.decEq a b, PyVal.decEqList as bs with
    | Decidable.isTrue h1, Decidable.isTrue h2 => Decidable.isTrue (by rw [h1, h2])
    | Decidable.isFalse h1, _ =>
      Decidable.isFalse (fun hh => List.noConfusion hh (fun e1 _ => h1 e1))
    | _, Decidable.isFalse h2 =>
      Decidable.isFalse (fun hh => List.noConfusion hh (fun _ e2 => h2 e2))

end

instance : DecidableEq PyVal := PyVal.decEq

/-- Decidable equality for `Except` (not provided by the core library
here). -/
def exceptDecEq {ε α : Type} [DecidableEq ε] [DecidableEq α] :
    (x y : Except ε α) → Decidable (x = y)
  | Except.ok a, Except.ok b =>
    if h : a = b then Decidable.isTrue (by rw [h])
    else Decidable.isFalse (fun hh => Except.noConfusion hh (fun h2 => h h2))
  | Except.ok _, Except.error _ => Decidable.isFalse (fun h => Except.noConfusion h)
  | Except.error _, Except.ok _ => Decidable.isFalse (fun h => Except.noConfusion h)
  | Except.error e, Except.error f =>
    if h : e = f then Decidable.isTrue (by rw [h])
    else Decidable.isFalse (fun hh => Except.noConfusion hh (fun h2 => h h2))

instance {ε α : Type} [DecidableEq ε] [DecidableEq α] : DecidableEq (Except ε α) :=
  exceptDecEq

/-- The Python exception kinds relevant to app.py: `ValueError` and
`SyntaxError` are caught at line 17, `TypeError` is raised by `len`/
`re.findall` on unsupported operands, `KeyError` by a missing dataframe
column. -/
inductive PyErr where
  | valueError : PyErr
  | syntaxError : PyErr
  | typeError : PyErr
  | keyError : PyErr
deriving Repr, DecidableEq

/-- The single-quote character (used by the literal parser). -/
def sqc : Char := Char.ofNat 39

/-- The double-quote character (used by the literal parser). -/
def dqc : Char := Char.ofNat 34

/-- The backslash character. -/
def bsl : Char := Char.ofNat 92

/-- Python source whitespace. -/
def isWs (c : Char) : Bool := c = ' ' || c = Char.ofNat 9 || c = Char.ofNat 10 || c = Char.ofNat 13

/-- Drop leading whitespace. -/
def skipWs (cs : List Char) : List Char := cs.dropWhile isWs

/-- Scan the body of a Python string literal up to the closing quote `q`.
Escape sequences are outside the modelled fragment (a backslash fails the
scan). Returns the body and the remainder after the closing quote. -/
def takeStr (q : Char) : List Char → Option (List Char × List Char)
  | [] => Option.none
  | c :: rest =>
    if c = q then Option.some ([], rest)
    else if c = bsl then Option.none
    else match takeStr q rest with
      | Option.some (s, r) => Option.some (c :: s, r)
      | Option.none => Option.none

/-- Decimal digits to a natural number. -/
def digitsToNat (ds : List Char) : Nat := ds.foldl (fun n c => 10 * n + (c.toNat - 48)) 0

/-- Scan a nonempty run of decimal digits as an integer literal. -/
def takeDigits (cs : List Char) : Option (Int × List Char) :=
  let ds := cs.takeWhile Char.isDigit
  if ds.isEmpty then Option.none
  else Option.some ((digitsToNat ds : Int), cs.dropWhile Char.isDigit)

mutual

/-- One Python literal expression, in the fragment modelled here: a
single- or double-quoted string literal (no escapes), an optionally
negated integer literal, or a bracketed list of literals.  Floats,
booleans, `None`, tuples, dicts, sets and implicit string concatenation
are outside the fragment.  The first argument is recursion fuel. -/
def parseVal : Nat → List Char → Option (PyVal × List Char)
  | 0, _ => Option.none
  | n + 1, cs0 =>
    match skipWs cs0 with
    | [] => Option.none
    | c :: rest =>
      if c = sqc then (takeStr sqc rest).map (fun p => (PyVal.str (String.mk p.1), p.2))
      else if c = dqc then (takeStr dqc rest).map (fun p => (PyVal.str (String.mk p.1), p.2))
      else if c = '[' then
        match parseElems n rest with
        | Option.some (vs, r) => Option.some (PyVal.list vs, r)
        | Option.none => Option.none
      else if c = '-' then (takeDigits rest).map (fun p => (PyVal.int (-p.1), p.2))
      else if c.isDigit then (takeDigits (c :: rest)).map (fun p => (PyVal.int p.1, p.2))
      else Option.none

/-- Elements of a bracketed list after the opening bracket: a possibly
empty comma-separated sequence of literals, allowing a trailing comma,
closed by a bracket. -/
def parseElems : Nat → List Char → Option (List PyVal × List Char)
  | 0, _ => Option.none
  | n + 1, cs =>
    match skipWs cs with
    | [] => Option.none
    | c :: rest =>
      if c = ']' then Option.some ([], rest)
      else
        match parseVal n (c :: rest) with
        | Option.none => Option.none
        | Option.some (v, r) =>
          match skipWs r with
          | [] => Option.none
          | c2 :: r2 =>
            if c2 = ',' then
              match parseElems n r2 with
              | Option.some (vs, r3) => Option.some (v :: vs, r3)
              | Option.none => Option.none
            else if c2 = ']' then Option.some ([v], r2)
            else Option.none

end

/-- Model of `ast.literal_eval` on a string argument, restricted to the
fragment of Python literals described at `parseVal`: the whole input,
up to surrounding whitespace, must be one literal.  CPython distinguishes
`SyntaxError` (unparsable text) from `ValueError` (parsable but
non-literal expression, e.g. `[a@b.com]`); both are caught identically at
app.py line 17, and the model reports every decode failure as
`.syntaxError`. -/
def literal_eval (s : String) : Except PyErr PyVal :=
  match parseVal (2 * s.length + 4) s.data with
  | Option.some (v, r) =>
    if (skipWs r).isEmpty then Except.ok v else Except.error PyErr.syntaxError
  | Option.none => Except.error PyErr.syntaxError

/-- The character class `[\w.-]` of the fallback regex at app.py line 19
(ASCII fragment of `\w`). -/
def isCls (c : Char) : Bool := c.isAlphanum || c = '_' || c = '.' || c = '-'

/-- One attempted match of `[\w.-]+@[\w.-]+` anchored at the head of the
input: a maximal nonempty class run, then a literal at-sign, then a
maximal nonempty class run (greedy; for this pattern the greedy match
needs no backtracking since shortening the first run leaves a class
character where the at-sign is required).  Returns the match and the
remainder. -/
def matchAt (cs : List Char) : Option (List Char × List Char) :=
  let p1 := cs.takeWhile isCls
  let r1 := cs.dropWhile isCls
  if p1.isEmpty then Option.none
  else
    match r1 with
    | [] => Option.none
    | c :: r2 =>
      if c = '@' then
        let p2 := r2.takeWhile isCls
        let r3 := r2.dropWhile isCls
        if p2.isEmpty then Option.none else Option.some (p1 ++ '@' :: p2, r3)
      else Option.none

/-- The scan loop of `re.findall`: at each position try a match; on
success emit it and resume after its end (non-overlapping), on failure
advance one character.  Fuel-driven; fuel = input length suffices since
every step consumes at least one character. -/
def findallAux : Nat → List Char → List String
  | 0, _ => []
  | _ + 1, [] => []
  | n + 1, c :: rest =>
    match matchAt (c :: rest) with
    | Option.some (m, r) => String.mk m :: findallAux n r
    | Option.none => findallAux n rest

/-- Model of `re.findall(r'[\w\.-]+@[\w\.-]+', s)`. -/
def findall (s : String) : List String := findallAux s.data.length s.data

/-- Model of `pd.isna` on a cell value. -/
def pyIsNa : PyVal → Bool
  | PyVal.none => true
  | _ => false

/-- Python `x == '[]'` for a cell value `x` (false for non-strings). -/
def pyEqEmptyBrackets : PyVal → Bool
  | PyVal.str s => s == "[]"
  | _ => false

/-- Model of `ast.literal_eval` applied to an arbitrary cell value: on a
non-string argument CPython's converter raises `ValueError` (malformed
node). -/
def literalEvalVal : PyVal → Except PyErr PyVal
  | PyVal.str s => literal_eval s
  | _ => Except.error PyErr.valueError

/-- Model of `re.findall(pattern, x)` applied to an arbitrary cell value: raises
`TypeError` unless the argument is a string. -/
def reFindallVal : PyVal → Except PyErr PyVal
  | PyVal.str s => Except.ok (PyVal.list ((findall s).map PyVal.str))
  | _ => Except.error PyErr.typeError

/-- app.py lines 8–20, `parse_email_array`: empty result for NaN or the
text `[]`; otherwise strict decoding by `ast.literal_eval`, whose value
is returned as-is on success; `ValueError` and `SyntaxError` fall back
to the regex scan over the raw value. -/
def parse_email_array (v : PyVal) : Except PyErr PyVal :=
  if pyIsNa v || pyEqEmptyBrackets v then Except.ok (PyVal.list [])
  else
    match literalEvalVal v with
    | Except.ok r => Except.ok r
    | Except.error PyErr.valueError => reFindallVal v
    | Except.error PyErr.syntaxError => reFindallVal v
    | Except.error e => Except.error e

/-- A pandas dataframe: a header (column names, in order) and rows, each
row listing its cell values in header order. -/
structure Table where
  cols : List String
  rows : List (List PyVal)
deriving Repr, DecidableEq

instance : Inhabited Table := ⟨⟨[], []⟩⟩

/-- Python `len` on a cell value: defined for lists (element count) and
strings (character count); `TypeError` on `None`/NaN (a float) and on
integers. -/
def pyLen : PyVal → Except PyErr Nat
  | PyVal.list vs => Except.ok vs.length
  | PyVal.str s => Except.ok s.length
  | PyVal.none => Except.error PyErr.typeError
  | PyVal.int _ => Except.error PyErr.typeError

/-- Model of `Series.apply`: apply `f` to every element, propagating the first
raised exception, as pandas does. -/
def mapExcept (f : α → Except ε β) : List α → Except ε (List β)
  | [] => Except.ok []
  | a :: as =>
    match f a with
    | Except.error e => Except.error e
    | Except.ok b =>
      match mapExcept f as with
      | Except.error e => Except.error e
      | Except.ok bs => Except.ok (b :: bs)

/-- Column read `df[c]`: the designated column as a list of cell values
(`Option.none` models the `KeyError` on a missing column). -/
def Table.colVals (t : Table) (c : String) : Option (List PyVal) :=
  match t.cols.findIdx? (· == c) with
  | Option.none => Option.none
  | Option.some i => Option.some (t.rows.map (fun r => r.getD i PyVal.none))

/-- Column write `df[c] = vals`: overwrite the column in place when the name
exists, otherwise append it as the last column. -/
def Table.setColVals (t : Table) (c : String) (vals : List PyVal) : Table :=
  match t.cols.findIdx? (· == c) with
  | Option.some i => { cols := t.cols, rows := (t.rows.zip vals).map (fun p => p.1.set i p.2) }
  | Option.none => { cols := t.cols ++ [c], rows := (t.rows.zip vals).map (fun p => p.1 ++ [p.2]) }

/-- Effect of `DataFrame.explode` on one cell: a nonempty list fans out to its
elements, an empty list yields a single NaN, and any scalar (including a
string) is kept unchanged as a single row. -/
def explodeVal : PyVal → List PyVal
  | PyVal.list [] => [PyVal.none]
  | PyVal.list vs => vs
  | v => [v]

/-- Model of `DataFrame.explode(c)`: each row is replaced by one copy per element
of its cell in column `c`, in element order, rows kept in order. -/
def Table.explode (t : Table) (c : String) : Except PyErr Table :=
  match t.cols.findIdx? (· == c) with
  | Option.none => Except.error PyErr.keyError
  | Option.some i =>
    Except.ok { cols := t.cols,
                rows := t.rows.flatMap (fun r => (explodeVal (r.getD i PyVal.none)).map (fun v => r.set i v)) }

/-- Model of `DataFrame.rename` on one column name: rename matching columns in
place, silently ignoring an absent name. -/
def Table.rename (t : Table) (old new : String) : Table :=
  { cols := t.cols.map (fun c => if c = old then new else c), rows := t.rows }

/-- The statistics triple returned by `process_csv`. -/
structure Stats where
  rows_before : Nat
  rows_after : Nat
  emails_found : Nat
deriving Repr, DecidableEq

/-- app.py lines 22–50, `process_csv`: copy the dataframe, store the
parsed email column, count emails and rows on the unfiltered data, keep
the rows with a nonempty parse, explode the parsed column, rename it to
`email`, and return the exploded table with the statistics. -/
def process_csv (df : Table) : Except PyErr (Table × Stats) :=
  let df_copy := df
  match df_copy.colVals "pii.Email_Array" with
  | Option.none => Except.error PyErr.keyError
  | Option.some cells =>
    match mapExcept parse_email_array cells with
    | Except.error e => Except.error e
    | Except.ok parsed =>
      let df_copy2 := df_copy.setColVals "parsed_emails" parsed
      match mapExcept pyLen parsed with
      | Except.error e => Except.error e
      | Except.ok lens =>
        let total_emails_before := lens.sum
        let total_rows_before := df_copy2.rows.length
        let df_with_emails : Table :=
          { cols := df_copy2.cols,
            rows := ((df_copy2.rows.zip lens).filter (fun p => 0 < p.2)).map Prod.fst }
        match df_with_emails.explode "parsed_emails" with
        | Except.error e => Except.error e
        | Except.ok dfe =>
          let df_exploded := dfe.rename "parsed_emails" "email"
          let total_rows_after := df_exploded.rows.length
          Except.ok (df_exploded,
            { rows_before := total_rows_before,
              rows_after := total_rows_after,
              emails_found := total_emails_before })

/-- The error message shown at app.py line 79. -/
def missingColumnMsg : String :=
  "The CSV file must contain a column named 'pii.Email_Array' with email addresses."

/-- Outcome of one upload handled by `main` (app.py lines 77–87): either
the missing-column error message with no processing, a processed table
with statistics, or an uncaught exception from `process_csv`. -/
inductive MainOutcome where
  | missingColumn : String → MainOutcome
  | processed : Table → Stats → MainOutcome
  | crashed : PyErr → MainOutcome
deriving Repr, DecidableEq

/-- app.py lines 77–87: the column-presence check guards the call to
`process_csv`. -/
def main_on_upload (df : Table) : MainOutcome :=
  if df.cols.contains "pii.Email_Array" then
    match process_csv df with
    | Except.ok (t, s) => MainOutcome.processed t s
    | Except.error e => MainOutcome.crashed e
  else MainOutcome.missingColumn missingColumnMsg

/-- Rendering of `process_csv` over an explicit store of dataframe objects,
making object identity and in-place mutation visible: the caller's
dataframe lives at index `i`; line 25 (`df.copy()`) allocates a fresh
object at the end of the store, and line 28 (column assignment) mutates
only that fresh object.  Returns the final store and the call's result. -/
def process_csv_store (store : List Table) (i : Nat) : List Table × Except PyErr (Table × Stats) :=
  let j := store.length
  let store1 := store ++ [store.getD i default]
  let dfc := store1.getD j default
  match dfc.colVals "pii.Email_Array" with
  | Option.none => (store1, Except.error PyErr.keyError)
  | Option.some cells =>
    match mapExcept parse_email_array cells with
    | Except.error e => (store1, Except.error e)
    | Except.ok parsed =>
      let store2 := store1.set j ((store1.getD j default).setColVals "parsed_emails" parsed)
      let dfc2 := store2.getD j default
      match mapExcept pyLen parsed with
      | Except.error e => (store2, Except.error e)
      | Except.ok lens =>
        let dfw : Table :=
          { cols := dfc2.cols,
            rows := ((dfc2.rows.zip lens).filter (fun p => 0 < p.2)).map Prod.fst }
        match dfw.explode "parsed_emails" with
        | Except.error e => (store2, Except.error e)
        | Except.ok dfe =>
          let dfx := dfe.rename "parsed_emails" "email"
          (store2, Except.ok (dfx,
            { rows_before := dfc2.rows.length,
              rows_after := dfx.rows.length,
              emails_found := lens.sum }))

/-! Derived definitions used to state the claims. -/

/-- Value of an `Except`, with a default for the error case. -/
def okD (e : Except ε α) (d : α) : α :=
  match e with
  | Except.ok a => a
  | Except.error _ => d

/-- Whether an `Except` is a success. -/
def isOkB (e : Except ε α) : Bool :=
  match e with
  | Except.ok _ => true
  | Except.error _ => false

/-- Index of the designated email-array column (0 when absent; only used
under the assumption the column is present). -/
def emailColIdx (df : Table) : Nat := (df.cols.findIdx? (· == "pii.Email_Array")).getD 0

/-- The email-array cell of one row. -/
def emailCell (df : Table) (r : List PyVal) : PyVal := r.getD (emailColIdx df) PyVal.none

/-- The parsed value of a cell (default NaN on an exception; only used
where `parse_email_array` succeeds). -/
def parsedD (v : PyVal) : PyVal := okD (parse_email_array v) PyVal.none

/-- The length `len(parse_email_array v)`, with default 0 on an
exception. -/
def parsedLenD (v : PyVal) : Nat :=
  match parse_email_array v with
  | Except.ok w => okD (pyLen w) 0
  | Except.error _ => 0

/-- A cell on which both `parse_email_array` and the subsequent `len`
succeed. -/
def cellGood (v : PyVal) : Bool :=
  match parse_email_array v with
  | Except.ok w => isOkB (pyLen w)
  | Except.error _ => false

/-- A cell whose parse succeeds with a Python list. -/
def cellList (v : PyVal) : Bool :=
  match parse_email_array v with
  | Except.ok (PyVal.list _) => true
  | _ => false

/-- A cell whose parse succeeds with a one-element Python list. -/
def cellSingleton (v : PyVal) : Bool :=
  match parse_email_array v with
  | Except.ok (PyVal.list [_]) => true
  | _ => false

/-- Every row the same width as the header (true of any table built by
`pd.read_csv`). -/
def Table.wf (t : Table) : Bool := t.rows.all (fun r => r.length == t.cols.length)

/-- The email-array column of `df`, defaulting to `[]` when absent. -/
def emailCol (df : Table) : List PyVal := (df.colVals "pii.Email_Array").getD []

/-- All email cells of `df` satisfy `p`. -/
def allCells (df : Table) (p : PyVal → Bool) : Bool := (emailCol df).all p

/-- The fan-out of one source row: nothing when its parsed value has
length 0, otherwise one expanded row per exploded element, the element
appended as the final (`email`) column. -/
def fanOut (df : Table) (r : List PyVal) : List (List PyVal) :=
  if 0 < parsedLenD (emailCell df r) then
    (explodeVal (parsedD (emailCell df r))).map (fun e => r ++ [e])
  else []

/-- Whether a value is a Python list. -/
def isPyList : PyVal → Bool
  | PyVal.list _ => true
  | _ => false

/-- Whether a character sequence matches the whole pattern
`[\w.-]+@[\w.-]+`: a nonempty class run, an at-sign, a nonempty class
run. -/
def emailShapedL (m : List Char) : Bool :=
  let p1 := m.takeWhile isCls
  let r := m.dropWhile isCls
  (!p1.isEmpty) &&
    match r with
    | c :: p2 => c = '@' && (!p2.isEmpty) && p2.all isCls
    | [] => false

/-- Whether a string matches the whole pattern `[\w.-]+@[\w.-]+`. -/
def emailShaped (m : String) : Bool := emailShapedL m.data

/-- The length-`len` substring of `s` starting at position `i`. -/
def substrAt (s : List Char) (i len : Nat) : List Char := (s.drop i).take len

/-- Spec-side definition, following the words of the specification
(§4.1): the substring of `s` at position `i` with length `len` matches
the pattern and is maximal, i.e. it cannot be extended by one character
to the left or to the right and still match. -/
def isMaximalMatchAt (s : List Char) (i len : Nat) : Bool :=
  decide (i + len ≤ s.length) && emailShapedL (substrAt s i len) &&
    (decide (i = 0) || !emailShapedL (substrAt s (i - 1) (len + 1))) &&
    (decide (s.length ≤ i + len) || !emailShapedL (substrAt s i (len + 1)))

/-- Spec-side definition, following the words of the specification
(§4.1): every maximal substring of `s` matching
`[\w.-]+@[\w.-]+`, in left-to-right order of appearance. -/
def maximalMatchesSpec (s : String) : List String :=
  (List.range s.data.length).flatMap (fun i =>
    (List.range (s.data.length + 1)).filterMap (fun len =>
      if isMaximalMatchAt s.data i len then Option.some (String.mk (substrAt s.data i len))
      else Option.none))

/-- First element of a parsed list cell (NaN when the parse is not a
nonempty list; only used where it is). -/
def firstParsed (v : PyVal) : PyVal :=
  match parse_email_array v with
  | Except.ok (PyVal.list (e :: _)) => e
  | _ => PyVal.none

/-! Concrete tables used to instantiate the claims. -/

/-- The end-to-end example table of spec §8. -/
def exW : Table :=
  { cols := ["id", "pii.Email_Array"],
    rows := [[PyVal.int 1, PyVal.str "['a@x.com', 'b@x.com']"],
             [PyVal.int 2, PyVal.str "[]"],
             [PyVal.int 3, PyVal.str "['c@y.com']"]] }

/-- Expected output table for `exW`. -/
def exWT : Table :=
  { cols := ["id", "pii.Email_Array", "email"],
    rows := [[PyVal.int 1, PyVal.str "['a@x.com', 'b@x.com']", PyVal.str "a@x.com"],
             [PyVal.int 1, PyVal.str "['a@x.com', 'b@x.com']", PyVal.str "b@x.com"],
             [PyVal.int 3, PyVal.str "['c@y.com']", PyVal.str "c@y.com"]] }

/-- Expected statistics for `exW`. -/
def exWS : Stats := { rows_before := 3, rows_after := 3, emails_found := 3 }

/-- One-row table whose email cell is a quoted string literal, so the
strict decode yields a bare string rather than a list. -/
def exQuoted : Table := { cols := ["pii.Email_Array"], rows := [[PyVal.str "'a@b.com'"]] }

/-- One-row table with one single-email list cell. -/
def exSingle : Table :=
  { cols := ["id", "pii.Email_Array"], rows := [[PyVal.int 1, PyVal.str "['a@b.com']"]] }

/-- A table without the email-array column. -/
def exNoCol : Table := { cols := ["id"], rows := [[PyVal.int 1]] }

/-- Expected output table for `exSingle`. -/
def exSingleT : Table :=
  { cols := ["id", "pii.Email_Array", "email"],
    rows := [[PyVal.int 1, PyVal.str "['a@b.com']", PyVal.str "a@b.com"]] }

/-- Expected statistics for `exSingle`. -/
def exSingleS : Stats := { rows_before := 1, rows_after := 1, emails_found := 1 }

/-! Helper lemmas. -/

theorem mapExcept_ok_of_forall {α β ε : Type} {f : α → Except ε β} {g : α → β} :
    ∀ {l : List α}, (∀ a ∈ l, f a = Except.ok (g a)) → mapExcept f l = Except.ok (l.map g)
  | [], _ => rfl
  | a :: as, h => by
    have ha := h a (List.mem_cons_self a as)
    have hrest := mapExcept_ok_of_forall (l := as) (fun x hx => h x (List.mem_cons_of_mem a hx))
    simp [mapExcept, ha, hrest]

theorem mapExcept_ok_forall {α β ε : Type} {f : α → Except ε β} :
    ∀ {l : List α} {ys : List β}, mapExcept f l = Except.ok ys → ∀ a ∈ l, isOkB (f a) = true := by
  intro l
  induction l with
  | nil => intro ys _ a ha; cases ha
  | cons x xs ih =>
    intro ys hok a ha
    simp only [mapExcept] at hok
    cases hfx : f x with
    | error e => rw [hfx] at hok; cases hok
    | ok b =>
      rw [hfx] at hok
      cases hrest : mapExcept f xs with
      | error e => rw [hrest] at hok; cases hok
      | ok bs =>
        cases ha with
        | head => simp [isOkB, hfx]
        | tail _ hmem => exact ih hrest a hmem

theorem mapExcept_ok_eq {α β ε : Type} {f : α → Except ε β} (d : β) :
    ∀ {l : List α} {ys : List β}, mapExcept f l = Except.ok ys →
      ys = l.map (fun a => okD (f a) d) := by
  intro l
  induction l with
  | nil => intro ys hok; cases hok; rfl
  | cons x xs ih =>
    intro ys hok
    simp only [mapExcept] at hok
    cases hfx : f x with
    | error e => rw [hfx] at hok; cases hok
    | ok b =>
      rw [hfx] at hok
      cases hrest : mapExcept f xs with
      | error e => rw [hrest] at hok; cases hok
      | ok bs =>
        rw [hrest] at hok
        cases hok
        simp [okD, hfx, ih hrest]

theorem findIdx?_beq_of_not_mem {a : String} :
    ∀ {l : List String}, a ∉ l → ∀ i, List.findIdx? (· == a) l i = Option.none := by
  intro l
  induction l with
  | nil => intro _ i; rfl
  | cons x xs ih =>
    intro hnm i
    have hx : (x == a) = false := by
      rw [beq_eq_false_iff_ne]
      simp only [List.mem_cons, not_or] at hnm
      exact fun h => hnm.1 h.symm
    rw [List.findIdx?_cons, hx]
    simp only [Bool.false_eq_true, if_false]
    exact ih (fun h => hnm (List.mem_cons_of_mem x h)) (i + 1)

theorem findIdx?_append_singleton {a : String} :
    ∀ {l : List String}, a ∉ l → ∀ i, List.findIdx? (· == a) (l ++ [a]) i = Option.some (i + l.length) := by
  intro l
  induction l with
  | nil => intro _ i; simp [List.findIdx?_cons]
  | cons x xs ih =>
    intro hnm i
    have hx : (x == a) = false := by
      rw [beq_eq_false_iff_ne]
      simp only [List.mem_cons, not_or] at hnm
      exact fun h => hnm.1 h.symm
    rw [List.cons_append, List.findIdx?_cons, hx]
    simp only [Bool.false_eq_true, if_false]
    rw [ih (fun h => hnm (List.mem_cons_of_mem x h)) (i + 1)]
    congr 1
    simp only [List.length_cons]
    omega

theorem contains_false_not_mem {a : String} {l : List String}
    (h : l.contains a = false) : a ∉ l := by
  intro hm
  rw [List.contains, (List.elem_iff).mpr hm] at h
  cases h

theorem zip_self_map {α β : Type} (l : List α) (g : α → β) :
    l.zip (l.map g) = l.map (fun a => (a, g a)) := by
  have := List.zip_map' (id : α → α) g l
  simpa using this

theorem getD_append_len {α : Type} (l : List α) (v d : α) :
    (l ++ [v]).getD l.length d = v := by
  rw [List.getD_append_right l [v] d l.length (Nat.le_refl _)]
  simp

theorem set_append_len {α : Type} (l : List α) (v e : α) :
    (l ++ [v]).set l.length e = l ++ [e] := by
  rw [List.set_append]
  simp

theorem flatMap_filter {α β : Type} (q : α → Bool) (f : α → List β) :
    ∀ (l : List α), (l.filter q).flatMap f = l.flatMap (fun a => if q a then f a else [])
  | [] => rfl
  | a :: as => by
    cases hq : q a with
    | true => simp [List.filter_cons, hq, List.flatMap_cons, flatMap_filter q f as]
    | false => simp [List.filter_cons, hq, List.flatMap_cons, flatMap_filter q f as]

theorem getD_set_ne {α : Type} (l : List α) (j i : Nat) (y d : α) (h : i ≠ j) :
    (l.set j y).getD i d = l.getD i d := by
  simp only [List.getD_eq_getElem?_getD]
  rw [List.getElem?_set_ne (fun hh => h hh.symm)]

theorem flatMap_singleton_eq_map {α β : Type} (g : α → β) :
    ∀ l : List α, (l.flatMap fun x => [g x]) = l.map g
  | [] => rfl
  | a :: as => by simp [List.flatMap_cons, flatMap_singleton_eq_map g as]

theorem setColVals_rows_length (t : Table) (c : String) (vals : List PyVal)
    (h : vals.length = t.rows.length) :
    (t.setColVals c vals).rows.length = t.rows.length := by
  cases hfi : t.cols.findIdx? (· == c) <;>
    simp [Table.setColVals, hfi, List.length_zip, h]

/-- Factoring of `parsedLenD` through `parsedD`. -/
theorem parsedLenD_eq (v : PyVal) : parsedLenD v = okD (pyLen (parsedD v)) 0 := by
  cases h : parse_email_array v with
  | ok w => simp [parsedLenD, parsedD, okD, h]
  | error e => simp [parsedLenD, parsedD, okD, h, pyLen]

/-- Structural characterization of a successful `process_csv` run on a
well-formed table: the result columns are the originals with `email`
appended, the result rows are the in-order concatenation of each source
row's fan-out, and the statistics count the unfiltered input. -/
theorem process_csv_spec (df : Table) (k : Nat)
    (hk : df.cols.findIdx? (· == "pii.Email_Array") = Option.some k)
    (hpe : df.cols.contains "parsed_emails" = false)
    (hwf : df.wf = true)
    (hgood : allCells df cellGood = true) :
    process_csv df = Except.ok
      ({ cols := df.cols ++ ["email"], rows := df.rows.flatMap (fanOut df) },
       { rows_before := df.rows.length,
         rows_after := (df.rows.flatMap (fanOut df)).length,
         emails_found := (df.rows.map (fun r => parsedLenD (emailCell df r))).sum }) := by
  have hpem : "parsed_emails" ∉ df.cols := contains_false_not_mem hpe
  have hidx : emailColIdx df = k := by simp [emailColIdx, hk]
  have hcv : df.colVals "pii.Email_Array" =
      Option.some (df.rows.map (fun r => r.getD k PyVal.none)) := by
    simp [Table.colVals, hk]
  have hwf' : ∀ r ∈ df.rows, r.length = df.cols.length := by
    intro r hr
    have := (List.all_eq_true.mp hwf) r hr
    exact beq_iff_eq.mp this
  have hgood' : ∀ v ∈ df.rows.map (fun r => r.getD k PyVal.none), cellGood v = true := by
    intro v hv
    have h1 : allCells df cellGood = (df.rows.map (fun r => r.getD k PyVal.none)).all cellGood := by
      simp [allCells, emailCol, hcv]
    rw [h1] at hgood
    exact (List.all_eq_true.mp hgood) v hv
  have hparse : ∀ v ∈ df.rows.map (fun r => r.getD k PyVal.none),
      parse_email_array v = Except.ok (parsedD v) := by
    intro v hv
    have hg := hgood' v hv
    cases h : parse_email_array v with
    | ok w => simp [parsedD, okD, h]
    | error e => simp [cellGood, h] at hg
  have hlen : ∀ v ∈ df.rows.map (fun r => r.getD k PyVal.none),
      pyLen (parsedD v) = Except.ok (okD (pyLen (parsedD v)) 0) := by
    intro v hv
    have hg := hgood' v hv
    cases h : parse_email_array v with
    | error e => simp [cellGood, h] at hg
    | ok w =>
      simp only [cellGood, h] at hg
      have hw : parsedD v = w := by simp [parsedD, okD, h]
      rw [hw]
      cases h2 : pyLen w with
      | ok n => simp [okD]
      | error e => simp [isOkB, h2] at hg
  have m1 : mapExcept parse_email_array (df.rows.map (fun r => r.getD k PyVal.none)) =
      Except.ok ((df.rows.map (fun r => r.getD k PyVal.none)).map parsedD) :=
    mapExcept_ok_of_forall hparse
  have m2 : mapExcept pyLen ((df.rows.map (fun r => r.getD k PyVal.none)).map parsedD) =
      Except.ok (((df.rows.map (fun r => r.getD k PyVal.none)).map parsedD).map
        (fun w => okD (pyLen w) 0)) := by
    apply mapExcept_ok_of_forall
    intro w hw
    rcases List.mem_map.mp hw with ⟨v, hv, rfl⟩
    exact hlen v hv
  have hset : df.setColVals "parsed_emails" ((df.rows.map (fun r => r.getD k PyVal.none)).map parsedD) =
      { cols := df.cols ++ ["parsed_emails"],
        rows := df.rows.map (fun r => r ++ [parsedD (r.getD k PyVal.none)]) } := by
    simp only [Table.setColVals, findIdx?_beq_of_not_mem hpem]
    congr 1
    rw [List.map_map]
    rw [zip_self_map df.rows (parsedD ∘ fun r => r.getD k PyVal.none)]
    rw [List.map_map]
    simp [Function.comp_def]
  have hlens : ((df.rows.map (fun r => r.getD k PyVal.none)).map parsedD).map
      (fun w => okD (pyLen w) 0) = df.rows.map (fun r => parsedLenD (r.getD k PyVal.none)) := by
    rw [List.map_map, List.map_map]
    apply List.map_congr_left
    intro r _
    exact (parsedLenD_eq _).symm
  have hzip : (df.rows.map (fun r => r ++ [parsedD (r.getD k PyVal.none)])).zip
      (df.rows.map (fun r => parsedLenD (r.getD k PyVal.none))) =
      df.rows.map (fun r => (r ++ [parsedD (r.getD k PyVal.none)], parsedLenD (r.getD k PyVal.none))) :=
    List.zip_map' _ _ _
  have hfilter : (df.rows.map (fun r =>
        (r ++ [parsedD (r.getD k PyVal.none)], parsedLenD (r.getD k PyVal.none)))).filter
        (fun p => 0 < p.2) =
      (df.rows.filter (fun r => 0 < parsedLenD (r.getD k PyVal.none))).map (fun r =>
        (r ++ [parsedD (r.getD k PyVal.none)], parsedLenD (r.getD k PyVal.none))) := by
    rw [List.filter_map]
    rfl
  have hfind2 : (df.cols ++ ["parsed_emails"]).findIdx? (· == "parsed_emails") =
      Option.some df.cols.length := by
    have := findIdx?_append_singleton hpem 0
    simpa using this
  have hrows3 : ((df.rows.filter (fun r => 0 < parsedLenD (r.getD k PyVal.none))).map (fun r =>
        r ++ [parsedD (r.getD k PyVal.none)])).flatMap (fun r2 =>
          (explodeVal (r2.getD df.cols.length PyVal.none)).map
            (fun v => r2.set df.cols.length v)) =
      df.rows.flatMap (fanOut df) := by
    rw [List.flatMap_map]
    have hcong : ∀ r ∈ df.rows.filter (fun r => 0 < parsedLenD (r.getD k PyVal.none)),
        (explodeVal ((r ++ [parsedD (r.getD k PyVal.none)]).getD df.cols.length PyVal.none)).map
            (fun v => (r ++ [parsedD (r.getD k PyVal.none)]).set df.cols.length v) =
        (explodeVal (parsedD (r.getD k PyVal.none))).map (fun v => r ++ [v]) := by
      intro r hr
      have hrl : r.length = df.cols.length := hwf' r (List.mem_filter.mp hr).1
      rw [← hrl, getD_append_len]
      apply List.map_congr_left
      intro v _
      rw [set_append_len]
    rw [List.flatMap_congr hcong]
    rw [flatMap_filter]
    apply List.flatMap_congr
    intro r _
    simp only [fanOut, emailCell, hidx]
    split
    · rename_i h
      rw [if_pos]
      simpa using h
    · rename_i h
      rw [if_neg]
      simpa using h
  simp only [process_csv, hcv]
  rw [m1]
  simp only [hset]
  rw [m2]
  simp only [hlens, hzip, hfilter, Table.explode, hfind2]
  simp only [List.map_map]
  simp only [Function.comp_def]
  rw [hrows3]
  simp only [Table.rename, List.map_append]
  have hcols : df.cols.map (fun c => if c = "parsed_emails" then "email" else c) = df.cols := by
    have : ∀ c ∈ df.cols, (fun c => if c = "parsed_emails" then "email" else c) c = id c := by
      intro c hc
      simp only [id]
      rw [if_neg]
      intro hceq
      exact hpem (hceq ▸ hc)
    rw [List.map_congr_left this, List.map_id]
  simp only [hcols]
  have hmsg : ([("parsed_emails" : String)].map (fun c => if c = "parsed_emails" then "email" else c)) = ["email"] := by
    simp
  simp only [List.map_cons, List.map_nil, if_pos rfl]
  congr 2
  simp only [emailCell, hidx, List.length_map]

/-- Every failure of the modelled `literal_eval` is a decode error (in
the set caught at app.py line 17). -/
theorem literal_eval_error {s : String} {e : PyErr} (h : literal_eval s = Except.error e) :
    e = PyErr.syntaxError := by
  simp only [literal_eval] at h
  cases hp : parseVal (2 * s.length + 4) s.data with
  | none => rw [hp] at h; cases h; rfl
  | some p =>
    rcases p with ⟨v, r⟩
    rw [hp] at h
    by_cases hr : (skipWs r).isEmpty
    · simp [hr] at h
    · simp only [hr, Bool.false_eq_true, if_false] at h
      cases h
      rfl

/-- On a string cell that is not the literal text `[]`, a successful
strict decode is returned unchanged, whatever kind of value it produced. -/
theorem parse_str_of_ok {s : String} {v : PyVal} (hne : s ≠ "[]")
    (h : literal_eval s = Except.ok v) : parse_email_array (PyVal.str s) = Except.ok v := by
  simp [parse_email_array, pyIsNa, pyEqEmptyBrackets, hne, literalEvalVal, h]

/-- On a string cell that is not the literal text `[]`, a failed strict
decode falls back to the regex scan of the raw text. -/
theorem parse_str_of_error {s : String} {e : PyErr} (hne : s ≠ "[]")
    (h : literal_eval s = Except.error e) :
    parse_email_array (PyVal.str s) = Except.ok (PyVal.list ((findall s).map PyVal.str)) := by
  have he := literal_eval_error h
  subst he
  simp [parse_email_array, pyIsNa, pyEqEmptyBrackets, hne, literalEvalVal, h, reFindallVal]

/-- Totality: `parse_email_array` never raises on a string cell. -/
theorem parse_str_isOk (s : String) : isOkB (parse_email_array (PyVal.str s)) = true := by
  by_cases hne : s = "[]"
  · subst hne
    simp [parse_email_array, pyIsNa, pyEqEmptyBrackets, isOkB]
  · cases h : literal_eval s with
    | ok v => rw [parse_str_of_ok hne h]; rfl
    | error e => rw [parse_str_of_error hne h]; rfl

/-- If `as` consists of class characters and `c` is not one, the
character run scan stops exactly at `c`. -/
theorem takeWhile_append_not {α : Type} (p : α → Bool) (c : α) (hc : p c = false) :
    ∀ (as bs : List α), as.all p = true → (as ++ c :: bs).takeWhile p = as := by
  intro as
  induction as with
  | nil => intro bs _; simp [List.takeWhile_cons, hc]
  | cons a as ih =>
    intro bs h
    simp only [List.all_cons, Bool.and_eq_true] at h
    simp [List.takeWhile_cons, h.1, ih bs h.2]

/-- Counterpart of `takeWhile_append_not` for `dropWhile`. -/
theorem dropWhile_append_not {α : Type} (p : α → Bool) (c : α) (hc : p c = false) :
    ∀ (as bs : List α), as.all p = true → (as ++ c :: bs).dropWhile p = c :: bs := by
  intro as
  induction as with
  | nil => intro bs _; simp [List.dropWhile_cons, hc]
  | cons a as ih =>
    intro bs h
    simp only [List.all_cons, Bool.and_eq_true] at h
    simp [List.dropWhile_cons, h.1, ih bs h.2]

/-- Every match produced by `matchAt` has the shape of the pattern. -/
theorem matchAt_shape : ∀ {cs m r : List Char}, matchAt cs = Option.some (m, r) →
    emailShapedL m = true := by
  intro cs m r h
  simp only [matchAt] at h
  by_cases h1 : (cs.takeWhile isCls).isEmpty
  · simp [h1] at h
  · simp only [h1, Bool.false_eq_true, if_false] at h
    cases hd : cs.dropWhile isCls with
    | nil => rw [hd] at h; cases h
    | cons c r2 =>
      rw [hd] at h
      by_cases hc : c = '@'
      · subst hc
        simp only [if_pos rfl] at h
        by_cases h2 : (r2.takeWhile isCls).isEmpty
        · simp [h2] at h
        · simp only [h2, Bool.false_eq_true, if_false, Option.some.injEq, Prod.mk.injEq] at h
          obtain ⟨hm, hr⟩ := h
          simp only [emailShapedL]
          rw [takeWhile_append_not isCls '@' (by decide) _ _ List.all_takeWhile]
          rw [dropWhile_append_not isCls '@' (by decide) _ _ List.all_takeWhile]
          simp [h1, h2, List.all_takeWhile]
      · simp [hc] at h

/-- Every string produced by the findall scan matches the pattern. -/
theorem findallAux_shaped : ∀ (n : Nat) (cs : List Char) (m : String),
    m ∈ findallAux n cs → emailShaped m = true := by
  intro n
  induction n with
  | zero => intro cs m h; cases h
  | succ n ih =>
    intro cs m h
    cases cs with
    | nil => cases h
    | cons c rest =>
      simp only [findallAux] at h
      cases hma : matchAt (c :: rest) with
      | none => rw [hma] at h; exact ih rest m h
      | some p =>
        rcases p with ⟨mm, r⟩
        rw [hma] at h
        cases h with
        | head => exact matchAt_shape hma
        | tail _ hmem => exact ih r m hmem

/-- Every result of `findall` matches the whole pattern
`[\w.-]+@[\w.-]+`. -/
theorem findall_shaped (s : String) : ∀ m ∈ findall s, emailShaped m = true :=
  fun m hm => findallAux_shaped s.data.length s.data m hm

/-- A string matching the pattern consists only of class characters and
at-signs — in particular it carries no brackets and no whitespace. -/
theorem emailShaped_chars {m : String} (h : emailShaped m = true) :
    m.data.all (fun c => isCls c || c = '@') = true := by
  simp only [emailShaped, emailShapedL] at h
  apply List.all_eq_true.mpr
  intro x hx
  rw [← List.takeWhile_append_dropWhile (p := isCls) (l := m.data)] at hx
  rcases List.mem_append.mp hx with hx1 | hx2
  · have := (List.all_eq_true.mp List.all_takeWhile) x hx1
    simp [this]
  · cases hd : m.data.dropWhile isCls with
    | nil => rw [hd] at hx2; cases hx2
    | cons c p2 =>
      rw [hd] at h hx2
      simp only [Bool.and_eq_true, decide_eq_true_eq] at h
      obtain ⟨hp1, ⟨hc, hp2⟩, hall⟩ := h
      cases hx2 with
      | head => simp [hc]
      | tail _ hxp2 =>
        have := (List.all_eq_true.mp hall) x hxp2
        simp [this]

/-- The email column under a known column index. -/
theorem emailCol_eq (df : Table) (k : Nat)
    (hk : df.cols.findIdx? (· == "pii.Email_Array") = Option.some k) :
    emailCol df = df.rows.map (fun r => r.getD k PyVal.none) := by
  simp [emailCol, Table.colVals, hk]

/-- The email cell of a row under a known column index. -/
theorem emailCell_eq (df : Table) (k : Nat) (r : List PyVal)
    (hk : df.cols.findIdx? (· == "pii.Email_Array") = Option.some k) :
    emailCell df r = r.getD k PyVal.none := by
  simp [emailCell, emailColIdx, hk]

/-- A successful `process_csv` run guarantees that every email cell
parsed and measured without an exception. -/
theorem process_csv_ok_allGood {df t : Table} {s : Stats}
    (hok : process_csv df = Except.ok (t, s)) : allCells df cellGood = true := by
  cases hcv : df.colVals "pii.Email_Array" with
  | none => simp only [process_csv, hcv] at hok; exact Except.noConfusion hok
  | some cells =>
    simp only [process_csv, hcv] at hok
    cases hm1 : mapExcept parse_email_array cells with
    | error e => simp only [hm1] at hok; exact Except.noConfusion hok
    | ok parsed =>
      simp only [hm1] at hok
      cases hm2 : mapExcept pyLen parsed with
      | error e => simp only [hm2] at hok; exact Except.noConfusion hok
      | ok lens =>
        have hcells : emailCol df = cells := by simp [emailCol, hcv]
        rw [allCells, hcells]
        apply List.all_eq_true.mpr
        intro v hv
        have h1 := mapExcept_ok_forall hm1 v hv
        cases hp : parse_email_array v with
        | error e => rw [hp] at h1; cases h1
        | ok w =>
          have hw : w ∈ parsed := by
            have := mapExcept_ok_eq PyVal.none hm1
            subst this
            apply List.mem_map.mpr
            exact ⟨v, hv, by simp [okD, hp]⟩
          have h2 := mapExcept_ok_forall hm2 w hw
          simp [cellGood, hp, h2]

/-- When a cell parses to a list, the fan-out of its row has exactly the
parsed length. -/
theorem fanOut_length_of_list (df : Table) (r : List PyVal)
    (hl : cellList (emailCell df r) = true) :
    (fanOut df r).length = parsedLenD (emailCell df r) := by
  cases h : parse_email_array (emailCell df r) with
  | error e => rw [cellList, h] at hl; cases hl
  | ok w =>
    cases w with
    | none => rw [cellList, h] at hl; cases hl
    | str a => rw [cellList, h] at hl; cases hl
    | int a => rw [cellList, h] at hl; cases hl
    | list l =>
      cases l with
      | nil => simp [fanOut, parsedLenD, parsedD, okD, h, pyLen]
      | cons x xs => simp [fanOut, parsedLenD, parsedD, okD, h, pyLen, explodeVal]

/-- When a cell parses to a one-element list, the fan-out of its row is
the single expanded row carrying that element. -/
theorem fanOut_singleton (df : Table) (r : List PyVal)
    (hl : cellSingleton (emailCell df r) = true) :
    fanOut df r = [r ++ [firstParsed (emailCell df r)]] := by
  cases h : parse_email_array (emailCell df r) with
  | error e => rw [cellSingleton, h] at hl; cases hl
  | ok w =>
    cases w with
    | none => rw [cellSingleton, h] at hl; cases hl
    | str a => rw [cellSingleton, h] at hl; cases hl
    | int a => rw [cellSingleton, h] at hl; cases hl
    | list l =>
      cases l with
      | nil => rw [cellSingleton, h] at hl; cases hl
      | cons x xs =>
        cases xs with
        | nil => simp [fanOut, parsedLenD, parsedD, okD, h, pyLen, explodeVal, firstParsed]
        | cons y ys => rw [cellSingleton, h] at hl; cases hl

/-! Claim theorems. -/

/-- C1, counterexample: on the one-row table whose email-array cell is
the quoted string literal `'a@b.com'`, the strict decode yields a bare
string; `len` counts its 7 characters but `explode` keeps it as a single
row, so `process_csv` returns stats with `rows_after = 1` and
`emails_found = 7`, refuting `rows_after == emails_found`. -/
theorem C1_counterexample :
    process_csv exQuoted = Except.ok
      ({ cols := ["pii.Email_Array", "email"],
         rows := [[PyVal.str "'a@b.com'", PyVal.str "a@b.com"]] },
       { rows_before := 1, rows_after := 1, emails_found := 7 }) ∧
      (1 : Nat) ≠ 7 :=
  ⟨by decide, by decide⟩

/-- C1, amended: for every input table containing the email-array column
on which `process_csv` returns, if every email cell parses to a Python
list (which every regex-fallback, empty-marker or list-literal cell
does), then the returned stats satisfy `rows_after = emails_found`
exactly. -/
theorem C1_rows_after_eq_emails_found (df t : Table) (s : Stats)
    (hok : process_csv df = Except.ok (t, s))
    (hl : allCells df cellList = true)
    (hwf : df.wf = true)
    (hpe : df.cols.contains "parsed_emails" = false) :
    s.rows_after = s.emails_found := by
  cases hfi : df.cols.findIdx? (· == "pii.Email_Array") with
  | none =>
    have hcv : df.colVals "pii.Email_Array" = Option.none := by simp [Table.colVals, hfi]
    simp only [process_csv, hcv] at hok
    exact Except.noConfusion hok
  | some k =>
    have hgood : allCells df cellGood = true := process_csv_ok_allGood hok
    have hmaster := process_csv_spec df k hfi hpe hwf hgood
    rw [hmaster] at hok
    simp only [Except.ok.injEq, Prod.mk.injEq] at hok
    obtain ⟨-, hs⟩ := hok
    subst hs
    show (df.rows.flatMap (fanOut df)).length =
      (List.map (fun r => parsedLenD (emailCell df r)) df.rows).sum
    rw [List.length_flatMap]
    congr 1
    apply List.map_congr_left
    intro r hr
    have hlr : cellList (emailCell df r) = true := by
      have hmem : emailCell df r ∈ emailCol df := by
        rw [emailCol_eq df k hfi, emailCell_eq df k r hfi]
        exact List.mem_map_of_mem _ hr
      exact (List.all_eq_true.mp hl) _ hmem
    simpa [Function.comp] using fanOut_length_of_list df r hlr

/-- C1, witness: the claim-amended theorem applied to the end-to-end
example table of spec §8. -/
theorem C1_witness :
    process_csv exW = Except.ok (exWT, exWS) ∧ allCells exW cellList = true ∧
      exW.wf = true ∧ exW.cols.contains "parsed_emails" = false ∧
      exWS.rows_after = exWS.emails_found :=
  ⟨by decide, by decide, by decide, by decide,
    C1_rows_after_eq_emails_found exW exWT exWS (by decide) (by decide) (by decide) (by decide)⟩

/-- C2, counterexample: on a one-row single-email table, the output of
`process_csv` keeps the original `pii.Email_Array` column and appends an
`email` column at the end — the array column is not replaced in place, so
the output header differs from the claimed `["id", "email"]`. -/
theorem C2_counterexample :
    process_csv exSingle = Except.ok (exSingleT, exSingleS) ∧
      exSingleT.cols = ["id", "pii.Email_Array", "email"] ∧
      (["id", "pii.Email_Array", "email"] : List String) ≠ ["id", "email"] :=
  ⟨by decide, by decide, by decide⟩

/-- C2, amended: the output table has all original columns unchanged with
a new `email` column appended at the end; when every array cell holds
exactly one email, the output additionally has the same row count and the
same data in the original columns, the parsed email sitting in the
appended column. -/
theorem C2_email_column_appended (df t : Table) (s : Stats)
    (hok : process_csv df = Except.ok (t, s))
    (hwf : df.wf = true)
    (hpe : df.cols.contains "parsed_emails" = false) :
    t.cols = df.cols ++ ["email"] ∧
      (allCells df cellSingleton = true →
        t.rows = df.rows.map (fun r => r ++ [firstParsed (emailCell df r)]) ∧
          t.rows.length = df.rows.length) := by
  cases hfi : df.cols.findIdx? (· == "pii.Email_Array") with
  | none =>
    have hcv : df.colVals "pii.Email_Array" = Option.none := by simp [Table.colVals, hfi]
    simp only [process_csv, hcv] at hok
    exact Except.noConfusion hok
  | some k =>
    have hgood : allCells df cellGood = true := process_csv_ok_allGood hok
    have hmaster := process_csv_spec df k hfi hpe hwf hgood
    rw [hmaster] at hok
    simp only [Except.ok.injEq, Prod.mk.injEq] at hok
    obtain ⟨ht, -⟩ := hok
    constructor
    · rw [← ht]
    · intro hone
      have hrows : df.rows.flatMap (fanOut df) =
          df.rows.map (fun r => r ++ [firstParsed (emailCell df r)]) := by
        have hsingle : ∀ r ∈ df.rows,
            fanOut df r = [r ++ [firstParsed (emailCell df r)]] := by
          intro r hr
          apply fanOut_singleton
          have hmem : emailCell df r ∈ emailCol df := by
            rw [emailCol_eq df k hfi, emailCell_eq df k r hfi]
            exact List.mem_map_of_mem _ hr
          exact (List.all_eq_true.mp hone) _ hmem
        rw [List.flatMap_congr hsingle]
        exact flatMap_singleton_eq_map _ df.rows
      constructor
      · rw [← ht]
        exact hrows
      · rw [← ht]
        show (df.rows.flatMap (fanOut df)).length = df.rows.length
        rw [hrows, List.length_map]

/-- C2, witness: the column clause of the amended theorem instantiated on
the multi-email end-to-end table of spec §8, and the single-email clause
instantiated on the one-row single-email table. -/
theorem C2_witness :
    process_csv exW = Except.ok (exWT, exWS) ∧ exW.wf = true ∧
      exW.cols.contains "parsed_emails" = false ∧
      exWT.cols = exW.cols ++ ["email"] ∧
      process_csv exSingle = Except.ok (exSingleT, exSingleS) ∧ exSingle.wf = true ∧
      exSingle.cols.contains "parsed_emails" = false ∧
      allCells exSingle cellSingleton = true ∧
      exSingleT.cols = exSingle.cols ++ ["email"] ∧
      exSingleT.rows = exSingle.rows.map
        (fun r => r ++ [firstParsed (emailCell exSingle r)]) ∧
      exSingleT.rows.length = exSingle.rows.length :=
  ⟨by decide, by decide, by decide,
    (C2_email_column_appended exW exWT exWS (by decide) (by decide) (by decide)).1,
    by decide, by decide, by decide, by decide,
    (C2_email_column_appended exSingle exSingleT exSingleS
      (by decide) (by decide) (by decide)).1,
    ((C2_email_column_appended exSingle exSingleT exSingleS
      (by decide) (by decide) (by decide)).2 (by decide)).1,
    ((C2_email_column_appended exSingle exSingleT exSingleS
      (by decide) (by decide) (by decide)).2 (by decide)).2⟩

/-- C3, counterexample: on a non-string, non-null cell value such as the
integer 123 (what the table loader yields for an all-numeric column),
`ast.literal_eval` raises a caught `ValueError`, and the regex fallback
then raises an uncaught `TypeError` — `parse_email_array` propagates an
error to its caller, refuting the claim for arbitrary loader values. -/
theorem C3_counterexample :
    parse_email_array (PyVal.int 123) = Except.error PyErr.typeError := by decide

/-- C3, amended: for null/NaN and string cell values `parse_email_array`
never raises: NaN yields the empty list, every string input returns
successfully, and when the strict decode fails and the fallback scan
finds nothing the result is the empty list.  (On non-string, non-null
values it can raise, and a successful strict decode may return a
non-sequence literal.) -/
theorem C3_no_raise_on_null_or_string :
    parse_email_array PyVal.none = Except.ok (PyVal.list []) ∧
      (∀ s : String, isOkB (parse_email_array (PyVal.str s)) = true) ∧
      (∀ s : String, ∀ e : PyErr, literal_eval s = Except.error e → findall s = [] →
        parse_email_array (PyVal.str s) = Except.ok (PyVal.list [])) := by
  refine ⟨by decide, parse_str_isOk, ?_⟩
  intro s e hf hemp
  by_cases hne : s = "[]"
  · subst hne
    rw [show literal_eval "[]" = Except.ok (PyVal.list []) from by decide] at hf
    exact Except.noConfusion hf
  · rw [parse_str_of_error hne hf, hemp]
    rfl

/-- C3, witness: the amended theorem instantiated on the malformed cell
text of spec §8, which decodes to nothing and scans to nothing. -/
theorem C3_witness :
    literal_eval "[malformed" = Except.error PyErr.syntaxError ∧
      findall "[malformed" = [] ∧
      parse_email_array (PyVal.str "[malformed") = Except.ok (PyVal.list []) :=
  ⟨by decide, by decide,
    C3_no_raise_on_null_or_string.2.2 "[malformed" PyErr.syntaxError (by decide) (by decide)⟩

/-- C4, counterexample: the strict path happily decodes the quoted string
literal `'a@b.com'` and `parse_email_array` returns the bare (non-list)
string, refuting the claim that only list literals are accepted and
non-list literals are sent to the fallback. -/
theorem C4_counterexample :
    parse_email_array (PyVal.str "'a@b.com'") = Except.ok (PyVal.str "a@b.com") ∧
      isPyList (PyVal.str "a@b.com") = false :=
  ⟨by decide, by decide⟩

/-- C4, amended: the strict structured-decoding path accepts every
syntactically valid literal and returns its decoded value unchanged,
list or not; only decode failures reach the fallback. -/
theorem C4_strict_path_returns_any_literal (s : String) (v : PyVal)
    (hne : s ≠ "[]") (h : literal_eval s = Except.ok v) :
    parse_email_array (PyVal.str s) = Except.ok v :=
  parse_str_of_ok hne h

/-- C4, witness: the amended theorem applied to the integer literal text
`42`, whose decoded value is returned uncoerced. -/
theorem C4_witness :
    ("42" : String) ≠ "[]" ∧ literal_eval "42" = Except.ok (PyVal.int 42) ∧
      parse_email_array (PyVal.str "42") = Except.ok (PyVal.int 42) :=
  ⟨by decide, by decide,
    C4_strict_path_returns_any_literal "42" (PyVal.int 42) (by decide) (by decide)⟩

/-- C5: when the designated email-array column is absent, `main` reports
the configuration error message to the operator and does not process, and
`process_csv` itself could only fail with a `KeyError` before any work —
no output table is produced either way. -/
theorem C5_missing_column (df : Table)
    (h : df.cols.contains "pii.Email_Array" = false) :
    main_on_upload df = MainOutcome.missingColumn missingColumnMsg ∧
      process_csv df = Except.error PyErr.keyError := by
  have hnm := contains_false_not_mem h
  have hcv : df.colVals "pii.Email_Array" = Option.none := by
    simp [Table.colVals, findIdx?_beq_of_not_mem hnm]
  constructor
  · have hcond : ¬ (df.cols.contains "pii.Email_Array" = true) := by
      rw [h]
      exact Bool.false_ne_true
    rw [main_on_upload, if_neg hcond]
  · simp [process_csv, hcv]

/-- C5, witness: the theorem applied to a table lacking the column. -/
theorem C5_witness :
    exNoCol.cols.contains "pii.Email_Array" = false ∧
      main_on_upload exNoCol = MainOutcome.missingColumn missingColumnMsg ∧
      process_csv exNoCol = Except.error PyErr.keyError :=
  ⟨by decide, (C5_missing_column exNoCol (by decide)).1,
    (C5_missing_column exNoCol (by decide)).2⟩

/-- C6, counterexample: on `a@b@c` the strict decode fails and the scan
returns only `a@b`, while `b@c` is also a maximal substring matching the
pattern — the non-overlapping left-to-right scan omits maximal matches
that overlap an earlier match, refuting "exactly the maximal substrings".
-/
theorem C6_counterexample :
    literal_eval "a@b@c" = Except.error PyErr.syntaxError ∧
      maximalMatchesSpec "a@b@c" = ["a@b", "b@c"] ∧
      parse_email_array (PyVal.str "a@b@c") = Except.ok (PyVal.list [PyVal.str "a@b"]) ∧
      (PyVal.list [PyVal.str "a@b"] : PyVal) ≠
        PyVal.list ((maximalMatchesSpec "a@b@c").map PyVal.str) :=
  ⟨by decide, by decide, by decide, by decide⟩

/-- C6, amended: for every string on which structured decoding fails,
`parse_email_array` returns exactly the matches of the left-to-right,
non-overlapping, greedy scan for `[\w.-]+@[\w.-]+` (the `re.findall`
semantics), each returned string matching the whole pattern; a maximal
matching substring that overlaps an earlier match is omitted. -/
theorem C6_fallback_scan (s : String) (e : PyErr)
    (hf : literal_eval s = Except.error e) (hne : s ≠ "[]") :
    parse_email_array (PyVal.str s) = Except.ok (PyVal.list ((findall s).map PyVal.str)) ∧
      ∀ m ∈ findall s, emailShaped m = true :=
  ⟨parse_str_of_error hne hf, findall_shaped s⟩

/-- C6, witness: the amended theorem instantiated on the fallback example
of spec §8. -/
theorem C6_witness :
    literal_eval "not a list but has x@y.com and z@w.org embedded" =
        Except.error PyErr.syntaxError ∧
      ("not a list but has x@y.com and z@w.org embedded" : String) ≠ "[]" ∧
      parse_email_array (PyVal.str "not a list but has x@y.com and z@w.org embedded") =
        Except.ok (PyVal.list [PyVal.str "x@y.com", PyVal.str "z@w.org"]) := by
  refine ⟨by decide, by decide, ?_⟩
  have h := (C6_fallback_scan "not a list but has x@y.com and z@w.org embedded"
    PyErr.syntaxError (by decide) (by decide)).1
  rw [h]
  decide

/-- C7: whenever `process_csv` returns, `rows_before` is the number of
source rows and `emails_found` is the sum of the parsed lengths over all
email cells of the unfiltered input — both counts are taken before the
empty-parse rows are discarded. -/
theorem C7_counts_unfiltered (df t : Table) (s : Stats)
    (hok : process_csv df = Except.ok (t, s)) :
    s.rows_before = df.rows.length ∧
      s.emails_found = ((emailCol df).map parsedLenD).sum := by
  cases hfi : df.cols.findIdx? (· == "pii.Email_Array") with
  | none =>
    have hcv : df.colVals "pii.Email_Array" = Option.none := by simp [Table.colVals, hfi]
    simp only [process_csv, hcv] at hok
    exact Except.noConfusion hok
  | some k =>
    have hcv : df.colVals "pii.Email_Array" =
        Option.some (df.rows.map (fun r => r.getD k PyVal.none)) := by
      simp [Table.colVals, hfi]
    simp only [process_csv, hcv] at hok
    cases hm1 : mapExcept parse_email_array (df.rows.map (fun r => r.getD k PyVal.none)) with
    | error e => simp only [hm1] at hok; exact Except.noConfusion hok
    | ok parsed =>
      simp only [hm1] at hok
      have hparsed := mapExcept_ok_eq PyVal.none hm1
      cases hm2 : mapExcept pyLen parsed with
      | error e => simp only [hm2] at hok; exact Except.noConfusion hok
      | ok lens =>
        simp only [hm2] at hok
        have hlens := mapExcept_ok_eq 0 hm2
        split at hok
        · exact Except.noConfusion hok
        · simp only [Except.ok.injEq, Prod.mk.injEq] at hok
          obtain ⟨-, hs⟩ := hok
          subst hs
          constructor
          · show (df.setColVals "parsed_emails" parsed).rows.length = df.rows.length
            apply setColVals_rows_length
            rw [hparsed, List.length_map, List.length_map]
          · show lens.sum = ((emailCol df).map parsedLenD).sum
            rw [hlens, hparsed, emailCol_eq df k hfi]
            simp only [List.map_map]
            congr 1
            apply List.map_congr_left
            intro r _
            simp only [Function.comp_def]
            exact (parsedLenD_eq _).symm

/-- C7, witness: the theorem applied to the end-to-end example table. -/
theorem C7_witness :
    process_csv exW = Except.ok (exWT, exWS) ∧
      exWS.rows_before = exW.rows.length ∧
      exWS.emails_found = ((emailCol exW).map parsedLenD).sum :=
  ⟨by decide, (C7_counts_unfiltered exW exWT exWS (by decide)).1,
    (C7_counts_unfiltered exW exWT exWS (by decide)).2⟩

/-- C8: whenever `process_csv` returns on a well-formed table, the output
rows are the in-order concatenation of each source row's fan-out: source
row order is preserved, the rows fanned out from one source row are
contiguous, and within one source row they follow the order of the
exploded parsed value. -/
theorem C8_row_order (df t : Table) (s : Stats)
    (hok : process_csv df = Except.ok (t, s))
    (hwf : df.wf = true)
    (hpe : df.cols.contains "parsed_emails" = false) :
    t.rows = df.rows.flatMap (fanOut df) := by
  cases hfi : df.cols.findIdx? (· == "pii.Email_Array") with
  | none =>
    have hcv : df.colVals "pii.Email_Array" = Option.none := by simp [Table.colVals, hfi]
    simp only [process_csv, hcv] at hok
    exact Except.noConfusion hok
  | some k =>
    have hgood : allCells df cellGood = true := process_csv_ok_allGood hok
    have hmaster := process_csv_spec df k hfi hpe hwf hgood
    rw [hmaster] at hok
    simp only [Except.ok.injEq, Prod.mk.injEq] at hok
    obtain ⟨ht, -⟩ := hok
    rw [← ht]

/-- C8, witness: the theorem applied to the end-to-end example table. -/
theorem C8_witness :
    process_csv exW = Except.ok (exWT, exWS) ∧ exW.wf = true ∧
      exW.cols.contains "parsed_emails" = false ∧
      exWT.rows = exW.rows.flatMap (fanOut exW) :=
  ⟨by decide, by decide, by decide,
    C8_row_order exW exWT exWS (by decide) (by decide) (by decide)⟩

/-- C9: in the store rendering of `process_csv`, where line 25 allocates
a fresh copy and line 28 mutates only that copy in place, the caller's
dataframe object is unchanged by the call, whatever the outcome. -/
theorem C9_caller_table_unchanged (store : List Table) (i : Nat)
    (h : i < store.length) :
    ((process_csv_store store i).1).getD i default = store.getD i default := by
  have hne : i ≠ store.length := Nat.ne_of_lt h
  have happ : (store ++ [store.getD i default]).getD i default = store.getD i default :=
    List.getD_append _ _ _ _ h
  have hsetD : ∀ y : Table,
      (((store ++ [store.getD i default]).set store.length y).getD i default) =
        store.getD i default := by
    intro y
    rw [getD_set_ne _ _ _ _ _ hne]
    exact happ
  simp only [process_csv_store]
  split
  · exact happ
  · split
    · exact happ
    · split
      · exact hsetD _
      · split
        · exact hsetD _
        · exact hsetD _

/-- C9, witness: the theorem applied to a one-table store. -/
theorem C9_witness :
    (0 : Nat) < [exW].length ∧
      ((process_csv_store [exW] 0).1).getD 0 default = [exW].getD 0 default :=
  ⟨by decide, C9_caller_table_unchanged [exW] 0 (by decide)⟩

/-- C10: whenever the strict decode of a cell fails — as it does for a
bracketed comma-separated cell with unquoted tokens such as
`[a@b.com, c@d.com]`, whose elements are not literals — the result comes
from the regex fallback, and every returned address consists only of
pattern characters: it never carries the surrounding whitespace or
brackets of the cell text. -/
theorem C10_unquoted_bracket_fallback :
    (∀ s : String, ∀ e : PyErr, literal_eval s = Except.error e → s ≠ "[]" →
      parse_email_array (PyVal.str s) = Except.ok (PyVal.list ((findall s).map PyVal.str)) ∧
        ∀ m ∈ findall s, m.data.all (fun c => isCls c || c = '@') = true) ∧
      literal_eval "[a@b.com, c@d.com]" = Except.error PyErr.syntaxError ∧
      parse_email_array (PyVal.str "[a@b.com, c@d.com]") =
        Except.ok (PyVal.list [PyVal.str "a@b.com", PyVal.str "c@d.com"]) := by
  refine ⟨?_, by decide, by decide⟩
  intro s e hf hne
  exact ⟨parse_str_of_error hne hf,
    fun m hm => emailShaped_chars (findall_shaped s m hm)⟩

/-- C10, witness: the universal part instantiated on another unquoted
bracketed cell. -/
theorem C10_witness :
    literal_eval "[x@y, z@w]" = Except.error PyErr.syntaxError ∧
      ("[x@y, z@w]" : String) ≠ "[]" ∧
      parse_email_array (PyVal.str "[x@y, z@w]") =
        Except.ok (PyVal.list [PyVal.str "x@y", PyVal.str "z@w"]) := by
  refine ⟨by decide, by decide, ?_⟩
  have h := (C10_unquoted_bracket_fallback.1 "[x@y, z@w]" PyErr.syntaxError
    (by decide) (by decide)).1
  rw [h]
  decide
